import Mathlib

/-!
Verification of the commit-message lint configuration (`.commitlint.config.mjs`).

The configuration supplies a lax header pattern, custom rule functions over the
parsed header, an imperative-verb allowlist, and ignore predicates.  We embed
those pieces as executable Lean definitions over `String`/`List Char` and prove
the specified properties about them.
-/

namespace Commitlint

set_option maxRecDepth 100000

/-- The JavaScript `\s` character class (ECMAScript WhiteSpace ∪ LineTerminator). -/
def jsWhitespace (c : Char) : Bool :=
  c = ' ' || c = '\t' || c = '\n' || c = '\x0b' || c = '\x0c' || c = '\r' ||
  c = Char.ofNat 0xa0 || c = Char.ofNat 0x1680 ||
  (0x2000 ≤ c.toNat && c.toNat ≤ 0x200a) ||
  c = Char.ofNat 0x2028 || c = Char.ofNat 0x2029 || c = Char.ofNat 0x202f ||
  c = Char.ofNat 0x205f || c = Char.ofNat 0x3000 || c = Char.ofNat 0xfeff

/-- The JavaScript `.` character class without the `s` flag: any character that
is not a line terminator. -/
def dotChar (c : Char) : Bool :=
  !(c = '\n' || c = '\r' || c = Char.ofNat 0x2028 || c = Char.ofNat 0x2029)

/-- The JavaScript `\w` character class: ASCII letters, digits and underscore. -/
def wordChar (c : Char) : Bool :=
  c.isAlphanum || c = '_'

/-- The character class `[\w._-]` of the component token in `headerPattern`. -/
def componentChar (c : Char) : Bool :=
  wordChar c || c = '.' || c = '-'

/-- JavaScript `String.prototype.trim` on a character list: drop `\s` characters
from both ends. -/
def jsTrimList (cs : List Char) : List Char :=
  ((cs.dropWhile jsWhitespace).reverse.dropWhile jsWhitespace).reverse

/-- JavaScript `String.prototype.trim`. -/
def jsTrimStr (s : String) : String :=
  String.mk (jsTrimList s.data)

/-- JavaScript `String.prototype.toLowerCase`, restricted to ASCII case mapping. -/
def lowerString (s : String) : String :=
  String.mk (s.data.map Char.toLower)

/-- Match a literal character sequence at the start of the input, returning the
remainder on success. -/
def dropLit : List Char → List Char → Option (List Char)
  | [], cs => some cs
  | _ :: _, [] => none
  | l :: ls, c :: cs => if c = l then dropLit ls cs else none

/-- Substring test on character lists (JavaScript `String.prototype.includes`). -/
def listContainsSub (needle hay : List Char) : Bool :=
  hay.tails.any (fun t => needle.isPrefixOf t)

/-- `@commitlint/ensure` `notEmpty`: the string has positive length. -/
def notEmptyStr (s : String) : Bool :=
  decide (0 < s.length)

/-- `@commitlint/message`: join the message parts with single spaces
(JavaScript `Array.prototype.join(' ')`; all parts passed by the
configuration's rules are strings, so the `typeof` filter keeps every part). -/
def mkMessage : List String → String
  | [] => ""
  | [p] => p
  | p :: q :: rest => p ++ (" ") ++ mkMessage (q :: rest)

/-- The `when` argument commitlint passes to a rule. -/
inductive When
  | always
  | never
deriving DecidableEq, Repr

/-- `when === 'never'`. -/
def When.negated : When → Bool
  | .always => false
  | .never => true

/-- Result of one rule application: the pass flag and the optional message
(the tense rule's early `return [true]` carries no message). -/
structure RuleResult where
  passed : Bool
  msg : Option String
deriving DecidableEq, Repr

/-- The fields assigned by `headerCorrespondence: ['subject', 'component',
'description']` from `headerPattern`, together with the raw header.  A field is
`none` when its capture group did not participate in the match (JavaScript
`null`/`undefined`). -/
structure Parsed where
  header : String
  subject : Option String
  component : Option String
  description : Option String
deriving DecidableEq, Repr

/-- The first alternative of `headerPattern = /^((?:([\w._-]+):\s(.+))|.+)$/`:
a non-empty run of `[\w._-]` characters, a colon, one `\s` character, and a
non-empty run of `.`-matchable characters reaching the end of the line.  The
token run is necessarily maximal (the class excludes `:`), so the match is
deterministic.  Returns the two capture groups (component token, description). -/
def matchColonForm (cs : List Char) : Option (List Char × List Char) :=
  let tok := cs.takeWhile componentChar
  match cs.dropWhile componentChar with
  | ':' :: w :: ds =>
      if !tok.isEmpty && jsWhitespace w && !ds.isEmpty && ds.all dotChar then
        some (tok, ds)
      else
        none
  | _ => none

/-- Application of `headerPattern` to the header line with the configured
`headerCorrespondence`.  Group 1 (the whole alternation) is `subject`; groups 2
and 3 (`component`, `description`) participate only in the colon form.  When the
first alternative fails, the second (`.+`) matches any non-empty line without
line terminators, leaving `component` and `description` unset; when that also
fails, every field is unset. -/
def parseHeader (header : String) : Parsed :=
  match matchColonForm header.data with
  | some (tok, ds) =>
      { header := header
        subject := some header
        component := some (String.mk tok)
        description := some (String.mk ds) }
  | none =>
      if !header.data.isEmpty && header.data.all dotChar then
        { header := header, subject := some header, component := none, description := none }
      else
        { header := header, subject := none, component := none, description := none }

/-- The locally-added imperative verbs (`ALLOWED_IMPERATIVE_VERBS` in the configuration). -/
def ALLOWED_IMPERATIVE_VERBS : List String := [
  "accommodate", "archive", "auto-create", "backport", "backstop", "backtick", "box",
  "canonicalize", "cargo", "cherry-pick", "chill", "chmod", "choose", "compress",
  "conditionalize", "confine", "constrain", "consult", "deny", "derive", "destructure",
  "differentiate", "downgrade", "download", "drive", "elaborate", "encode", "execute", "express",
  "flip", "follow", "format", "genericize", "go", "inject", "install", "inventory", "isolate",
  "label", "label", "launch", "mention", "mitigate", "modularize", "mount", "normalize", "order",
  "organize", "output", "overhaul", "patch", "percent-encode", "persist", "pessimize", "pin",
  "plumb", "point", "polyfill", "prepend", "privatize", "quote", "raise", "re-create",
  "re-enable", "reap", "rebase", "recommend", "reconfigure", "redo", "refer", "render",
  "renumber", "repeat", "rerun", "restart", "retain", "scope", "secure", "sign", "solicit",
  "special-case", "strengthen", "stripe", "surface", "templatize", "tie", "translate", "truncate",
  "trust", "unmask", "unpin", "unset", "unwrap", "vend", "vendor", "widen"
]

/-- The verb allowlist borrowed from commitlint-plugin-tense, replicated verbatim in the
configuration file. -/
def COMMITLINT_PLUGIN_TENSE_ALLOWLIST : List String := [
  "abort", "absorb", "abstract", "accept", "access", "account", "acquire", "activate", "adapt",
  "add", "address", "adjust", "adopt", "advertise", "align", "allocate", "allow", "annotate",
  "append", "apply", "assert", "assign", "assume", "attach", "automatically", "avoid", "bail",
  "balance", "be", "beautify", "better", "bind", "block", "break", "bring", "build", "bump",
  "cache", "calculate", "call", "cancel", "capture", "cast", "catch", "centralise", "centralize",
  "change", "check", "clarify", "clean", "cleanup", "clear", "close", "code", "collapse",
  "collect", "combine", "comment", "compile", "complete", "compute", "conditionally", "configure",
  "consider", "consistently", "consolidate", "constify", "control", "convert", "copy", "correct",
  "count", "create", "deal", "debug", "declare", "decode", "decouple", "decrease", "deduplicate",
  "default", "defer", "define", "delay", "delete", "demote", "depend", "deprecate", "describe",
  "destroy", "detect", "determine", "disable", "disallow", "discard", "display", "distinguish",
  "do", "document", "don\x27t", "double", "drop", "dump", "eliminate", "embed", "emit", "emulate",
  "enable", "encapsulate", "enforce", "enhance", "ensure", "error", "exclude", "exit", "expand",
  "explain", "export", "expose", "extend", "extract", "factor", "factorize", "fail", "fallback",
  "fetch", "fill", "filter", "find", "finish", "fix", "fixup", "flush", "fold", "forbid", "force",
  "free", "fully", "further", "generalize", "generate", "get", "give", "grab", "group", "guard",
  "handle", "have", "hide", "hold", "honor", "honour", "hook", "identify", "ignore", "implement",
  "improve", "include", "increase", "increment", "indicate", "init", "initial", "initialise",
  "initialize", "inline", "insert", "integrate", "introduce", "invalidate", "invert", "invoke",
  "issue", "keep", "kill", "leave", "let", "lift", "limit", "link", "load", "lock", "log", "look",
  "lower", "maintain", "make", "manage", "map", "mark", "mask", "match", "merge", "migrate",
  "modify", "move", "name", "notify", "nuke", "null", "omit", "on", "open", "optimise",
  "optimize", "override", "parse", "pass", "perform", "permit", "place", "platform", "plug",
  "poll", "populate", "port", "power", "prefer", "prefix", "prepare", "preserve", "prevent",
  "print", "probe", "process", "program", "propagate", "protect", "provide", "pull", "purge",
  "push", "put", "query", "queue", "quiet", "read", "rearrange", "record", "reduce", "refactor",
  "reference", "refine", "reformat", "refresh", "refuse", "register", "reimplement", "reject",
  "relax", "release", "relicense", "relocate", "rely", "remove", "rename", "reorder",
  "reorganise", "reorganize", "repair", "replace", "report", "request", "require", "reserve",
  "reset", "resolve", "respect", "restore", "restrict", "restructure", "retrieve", "retry",
  "return", "reuse", "revert", "revise", "rework", "rewrite", "rip", "round", "run", "sanitise",
  "sanitize", "save", "schedule", "select", "send", "separate", "serialise", "serialize", "set",
  "setup", "share", "shorten", "show", "shrink", "shut", "silence", "simplify", "skip", "sort",
  "specify", "speed", "split", "standardise", "standardize", "start", "staticise", "staticize",
  "stop", "store", "streamline", "style", "supply", "support", "suppress", "swap", "switch",
  "sync", "synchronise", "synchronize", "take", "teach", "tell", "test", "tidy", "tidyup",
  "tighten", "trace", "track", "treat", "trigger", "trim", "try", "tune", "turn", "tweak",
  "unbreak", "unconditionally", "unexport", "unify", "uninline", "unlock", "unmap", "unregister",
  "update", "upgrade", "use", "utilise", "utilize", "validate", "verify", "wait", "wake", "warn",
  "wire", "work", "workaround", "wrap", "write", "zero"
]

/-- The effective allowlist built inside `descriptionPresentImperativeTense`:
`[...ALLOWED_IMPERATIVE_VERBS, ...COMMITLINT_PLUGIN_TENSE_ALLOWLIST]`. -/
def effectiveAllowlist : List String :=
  ALLOWED_IMPERATIVE_VERBS ++ COMMITLINT_PLUGIN_TENSE_ALLOWLIST

/-- JavaScript `description.split(' ')[0] || ''`: the run of characters before
the first literal space (the whole string when it has no space, the empty
string when the input is empty or starts with a space). -/
def firstSpaceToken (s : String) : String :=
  String.mk (s.data.takeWhile (fun c => c ≠ ' '))

/-- The custom rule `component-empty`: with the configured `when = 'never'` it
passes exactly when `parsed.component || ''` is non-empty. -/
def componentEmpty (parsed : Parsed) (w : When) : RuleResult :=
  let negated := w.negated
  let notEmpty := notEmptyStr (parsed.component.getD (""))
  { passed := if negated then notEmpty else !notEmpty
    msg := some (mkMessage [("subject"), if negated then ("must") else ("may not"),
                            ("be of the form <component>: <description>")]) }

/-- The custom rule `description-empty`: with the configured `when = 'never'` it
passes exactly when `parsed.description || ''` is non-empty. -/
def descriptionEmpty (parsed : Parsed) (w : When) : RuleResult :=
  let negated := w.negated
  let notEmpty := notEmptyStr (parsed.description.getD (""))
  { passed := if negated then notEmpty else !notEmpty
    msg := some (mkMessage [("subject"), if negated then ("must") else ("may not"),
                            ("be of the form <component>: <description>")]) }

/-- The custom rule `description-present-imperative-tense`: lower-case and trim
the description, take the text before the first space, pass trivially when that
is empty, and otherwise require membership in the concatenated allowlist. -/
def descriptionPresentImperativeTense (parsed : Parsed) (w : When) : RuleResult :=
  let negated := w.negated
  let description := jsTrimStr (lowerString (parsed.description.getD ("")))
  let firstWord := firstSpaceToken description
  if firstWord = "" then
    { passed := true, msg := none }
  else
    let allowed := effectiveAllowlist.contains firstWord
    { passed := if negated then !allowed else allowed
      msg := some (mkMessage [("subject"), if negated then ("may not") else ("must"),
                              ("use present imperative tense. disallowed word: "), firstWord]) }

/-- The case styles the configuration passes to `custom-subject-case`. -/
inductive CaseStyle
  | sentenceCase
  | startCase
  | pascalCase
  | upperCase
deriving DecidableEq, Repr

/-- Modelled from the spec: the body of the borrowed core rule `subject-case`
(`@commitlint/rules`, an external dependency whose source is not part of this
repository) applies a case-style check to the `subject` field of the object it
receives; per spec §4.4 the configuration rejects sentence-case, start-case,
Pascal-case and upper-case.  A missing or empty subject passes trivially. -/
def caseMatches (s : String) (style : CaseStyle) : Bool :=
  match style with
  | .upperCase => s.data.all (fun c => !c.isLower)
  | .pascalCase => (match s.data with
      | [] => false
      | c :: _ => c.isUpper && s.data.all (fun c => c ≠ ' '))
  | .startCase => s.data ≠ [] && (jsTrimList s.data).head?.all Char.isUpper
  | .sentenceCase => (match s.data with
      | [] => false
      | c :: _ => c.isUpper)

/-- Modelled from the spec: the dispatch of `@commitlint/rules`'s `subject-case`
on the object `{subject: ...}`; with `when = 'never'` the rule passes exactly
when the subject matches none of the listed styles. -/
def coreSubjectCase (subject : Option String) (w : When) (value : List CaseStyle) : RuleResult :=
  let negated := w.negated
  match subject with
  | none => { passed := true, msg := none }
  | some subj =>
      if subj = "" then { passed := true, msg := none }
      else
        let result := value.any (caseMatches subj)
        { passed := if negated then !result else result
          msg := some (mkMessage [("subject"), ("must not be of a disallowed case style")]) }

/-- The custom rule `custom-subject-case` from the configuration: build a new
parsed object whose `subject` is this parse's `description`, and hand it to the
core `subject-case` rule.  Only the description reaches the borrowed rule. -/
def customSubjectCaseRule (parsed : Parsed) (w : When) (value : List CaseStyle) : RuleResult :=
  coreSubjectCase parsed.description w value

/-- The first ignore predicate: `message.includes("Merge pull request #")`. -/
def mergeIgnore (msg : String) : Bool :=
  listContainsSub ("Merge pull request #").data msg.data

/-- The bump-commit character class `[\w.-]`. -/
def bumpChar (c : Char) : Bool :=
  wordChar c || c = '.' || c = '-'

/-- The second ignore predicate: `/^bump [\w.-]+ to v?[\w.-]+$/.test(message.trim())`.
The literal `bump ` must start the trimmed message; the following `[\w.-]+` run
is necessarily maximal (the class excludes the space that the literal ` to `
requires next); after ` to `, `v?[\w.-]+$` accepts exactly a non-empty run of
`[\w.-]` characters reaching the end (`v` itself is a word character, so the
optional prefix adds nothing). -/
def bumpIgnore (msg : String) : Bool :=
  match dropLit ("bump ").data (jsTrimList msg.data) with
  | none => false
  | some r =>
      let run := r.takeWhile bumpChar
      let rest := r.dropWhile bumpChar
      !run.isEmpty &&
        (match dropLit (" to ").data rest with
         | none => false
         | some b => !b.isEmpty && b.all bumpChar)

/-- The configured `ignores` array: a commit message is ignored when either
predicate matches. -/
def ignoresMatch (msg : String) : Bool :=
  mergeIgnore msg || bumpIgnore msg

/-- Modelled from the spec: commitlint splits the commit message into lines and
feeds the first line to the header pattern. -/
def firstLine (msg : String) : String :=
  String.mk (msg.data.takeWhile (fun c => c ≠ '\n'))

/-- Modelled from the spec: the core rule `header-max-length` with the
configured limit of 72 characters. -/
def headerMaxLength (parsed : Parsed) (limit : Nat) : RuleResult :=
  { passed := decide (parsed.header.length ≤ limit)
    msg := some (mkMessage [("header must not be longer than 72 characters")]) }

/-- Modelled from the spec: the core rule `header-trim` — the header has no
leading or trailing whitespace. -/
def headerTrim (parsed : Parsed) : RuleResult :=
  { passed := parsed.header == jsTrimStr parsed.header
    msg := some (mkMessage [("header must not have leading or trailing whitespace")]) }

/-- Modelled from the spec: the core rule `subject-empty` with the configured
`when = 'never'` — the parsed subject must be non-empty. -/
def subjectEmpty (parsed : Parsed) (w : When) : RuleResult :=
  let negated := w.negated
  let notEmpty := notEmptyStr (parsed.subject.getD (""))
  { passed := if negated then notEmpty else !notEmpty
    msg := some (mkMessage [("subject"), if negated then ("must") else ("may not"), ("be empty")]) }

/-- Modelled from the spec: the core rule `subject-full-stop` with the
configured `when = 'never'` — the subject must not end with a period. -/
def subjectFullStop (parsed : Parsed) (w : When) : RuleResult :=
  let negated := w.negated
  let ends := (parsed.subject.getD ("")).data.getLast? == some '.'
  { passed := if negated then !ends else ends
    msg := some (mkMessage [("subject"), if negated then ("may not") else ("must"),
                            ("end with full stop")]) }

/-- One entry of an evaluation report: the rule name and its result. -/
structure RuleEntry where
  rule : String
  result : RuleResult
deriving DecidableEq, Repr

/-- The report produced by evaluating one commit message. -/
structure EvaluationReport where
  results : List RuleEntry
  overallPassed : Bool
deriving DecidableEq, Repr

/-- Modelled from the spec: the rule-running engine (`@commitlint/lint`, the
external library the CI job invokes) is not among this repository's sources.
Per spec §4.8 the engine first tests the configured `ignores` predicates and,
on a match, exempts the commit entirely, returning a report with no rule
results and an overall pass; otherwise it runs the configured rules (here the
header-line rules; the body rules of §4.6–§4.7 concern only the message body
and are not needed by any claim) and conjoins their outcomes, all at severity
error. -/
def evaluate (msg : String) : EvaluationReport :=
  if ignoresMatch msg then
    { results := [], overallPassed := true }
  else
    let parsed := parseHeader (firstLine msg)
    let results : List RuleEntry := [
      { rule := ("header-max-length"), result := headerMaxLength parsed 72 },
      { rule := ("header-trim"), result := headerTrim parsed },
      { rule := ("subject-empty"), result := subjectEmpty parsed When.never },
      { rule := ("component-empty"), result := componentEmpty parsed When.never },
      { rule := ("description-empty"), result := descriptionEmpty parsed When.never },
      { rule := ("description-present-imperative-tense"),
        result := descriptionPresentImperativeTense parsed When.always },
      { rule := ("custom-subject-case"),
        result := customSubjectCaseRule parsed When.never
          [CaseStyle.sentenceCase, CaseStyle.startCase, CaseStyle.pascalCase,
           CaseStyle.upperCase] },
      { rule := ("subject-full-stop"), result := subjectFullStop parsed When.never }
    ]
    { results := results, overallPassed := results.all (fun r => r.result.passed) }

/-- The spec's notion of the "first whitespace-delimited token" of a string:
the run of characters before the first `\s` character. -/
def firstWhitespaceWord (s : String) : String :=
  String.mk (s.data.takeWhile (fun c => !jsWhitespace c))

/-- The tense-rule contract exactly as the spec states it: the rule passes if
and only if the description is empty or the first whitespace-delimited token of
the description, lower-cased, is a member of the allowlist. -/
def specTensePassAsStated (desc : String) : Bool :=
  desc == "" || effectiveAllowlist.contains (lowerString (firstWhitespaceWord desc))

/-- The amended tense-rule contract: the rule passes if and only if the trimmed
description is empty or the first space-delimited token of the trimmed,
lower-cased description is a member of the allowlist. -/
def specTensePassAmended (desc : String) : Bool :=
  jsTrimStr (lowerString desc) == "" ||
    effectiveAllowlist.contains (firstSpaceToken (jsTrimStr (lowerString desc)))

/-! ## Helper lemmas -/

theorem takeWhile_all_append {α} (p : α → Bool) (l t : List α) (c : α)
    (h₁ : l.all p = true) (h₂ : p c = false) :
    (l ++ c :: t).takeWhile p = l := by
  induction l with
  | nil => simp [List.takeWhile_cons, h₂]
  | cons a as ih =>
      simp only [List.all_cons, Bool.and_eq_true] at h₁
      simp [List.takeWhile_cons, h₁.1, ih h₁.2]

theorem dropWhile_all_append {α} (p : α → Bool) (l t : List α) (c : α)
    (h₁ : l.all p = true) (h₂ : p c = false) :
    (l ++ c :: t).dropWhile p = c :: t := by
  induction l with
  | nil => simp [List.dropWhile_cons, h₂]
  | cons a as ih =>
      simp only [List.all_cons, Bool.and_eq_true] at h₁
      simp [List.dropWhile_cons, h₁.1, ih h₁.2]

theorem dropLit_eq_some (ls : List Char) :
    ∀ cs r, dropLit ls cs = some r → cs = ls ++ r := by
  induction ls with
  | nil =>
      intro cs r h
      simp only [dropLit, Option.some.injEq] at h
      simp [h]
  | cons l ls ih =>
      intro cs r h
      cases cs with
      | nil => simp [dropLit] at h
      | cons c cs' =>
          rcases Decidable.em (c = l) with hc | hc
          · subst hc
            simp only [dropLit, if_pos rfl] at h
            simp [ih cs' r h]
          · simp [dropLit, hc] at h

theorem head_dropWhile_not {α} (p : α → Bool) :
    ∀ (l : List α) (c : α) (t : List α), l.dropWhile p = c :: t → p c = false := by
  intro l
  induction l with
  | nil => intro c t h; simp [List.dropWhile] at h
  | cons a as ih =>
      intro c t h
      cases ha : p a with
      | true => rw [List.dropWhile_cons, if_pos ha] at h; exact ih c t h
      | false =>
          rw [List.dropWhile_cons, if_neg (by simp [ha])] at h
          cases h
          exact ha

theorem mem_of_dropWhile_cons {α} (p : α → Bool) (l : List α) (c : α) (t : List α)
    (h : l.dropWhile p = c :: t) : c ∈ l := by
  have hs : l.dropWhile p <:+ l := List.dropWhile_suffix p
  rw [h] at hs
  exact hs.subset (by simp)

theorem jsTrimList_head_not_ws (cs : List Char) (c : Char) (t : List Char)
    (h : jsTrimList cs = c :: t) : jsWhitespace c = false := by
  have h1 : ((cs.dropWhile jsWhitespace).reverse.dropWhile jsWhitespace) <:+
      (cs.dropWhile jsWhitespace).reverse := List.dropWhile_suffix _
  have h2 : jsTrimList cs <+: cs.dropWhile jsWhitespace := by
    rw [← List.reverse_suffix]
    unfold jsTrimList
    rw [List.reverse_reverse]
    exact h1
  rw [h] at h2
  rcases h2 with ⟨u, hu⟩
  exact head_dropWhile_not jsWhitespace cs c (t ++ u) (by rw [← hu]; rfl)

theorem string_ext {s t : String} (h : s.data = t.data) : s = t :=
  congrArg String.mk h

theorem string_ne_empty_of_data {s : String} {c : Char} {t : List Char}
    (h : s.data = c :: t) : s ≠ "" := by
  intro he
  rw [he] at h
  simp at h

theorem data_ne_nil_of_ne_empty {s : String} (h : s ≠ "") : s.data ≠ [] := by
  intro hd
  exact h (string_ext (by simp [hd]))

/-- Inversion of a successful colon-form match: the component token is the
maximal `[\w._-]` run, both captures are non-empty, and the input decomposes as
token, colon, one whitespace character, description. -/
theorem matchColonForm_some (cs tok ds : List Char)
    (h : matchColonForm cs = some (tok, ds)) :
    tok ≠ [] ∧ tok.all componentChar = true ∧ ds ≠ [] ∧ ds.all dotChar = true ∧
    ∃ w, jsWhitespace w = true ∧ cs = tok ++ ':' :: w :: ds := by
  unfold matchColonForm at h
  split at h
  next w ds' heq =>
    simp only [] at h
    split at h
    next hcond =>
      simp only [Option.some.injEq, Prod.mk.injEq] at h
      obtain ⟨htok, hds⟩ := h
      simp only [Bool.and_eq_true] at hcond
      obtain ⟨⟨⟨hne, hw⟩, hdne⟩, hall⟩ := hcond
      subst htok
      subst hds
      refine ⟨?_, List.all_takeWhile .., ?_, hall, w, hw, ?_⟩
      · intro hnil
        rw [hnil] at hne
        simp at hne
      · intro hnil
        rw [hnil] at hdne
        simp at hdne
      · conv_lhs => rw [← List.takeWhile_append_dropWhile (p := componentChar) (l := cs)]
        rw [heq]
    next => exact absurd h (by simp)
  next => exact absurd h (by simp)

/-- Construction of a colon-form match from its parts: a non-empty component
run, a colon, one whitespace character, and a non-empty line remainder. -/
theorem matchColonForm_build (tok rest : List Char) (w : Char)
    (h₁ : tok ≠ []) (h₂ : tok.all componentChar = true)
    (h₃ : rest ≠ []) (h₄ : rest.all dotChar = true) (h₅ : jsWhitespace w = true) :
    matchColonForm (tok ++ ':' :: w :: rest) = some (tok, rest) := by
  unfold matchColonForm
  have hc : componentChar ':' = false := by decide
  rw [takeWhile_all_append componentChar tok (w :: rest) ':' h₂ hc,
      dropWhile_all_append componentChar tok (w :: rest) ':' h₂ hc]
  simp [h₁, h₃, h₄, h₅]

/-! ## Claims -/

set_option maxRecDepth 40000 in
/-- C9: the effective allowlist used by the tense rule is the union of the
local additions and the borrowed plugin list, and every entry of both lists
equals its own lower-cased form, so comparison against a lower-cased first
token is sound. -/
theorem claim_C9_allowlist_union_lowercase :
    (∀ s : String, effectiveAllowlist.contains s =
        (ALLOWED_IMPERATIVE_VERBS.contains s || COMMITLINT_PLUGIN_TENSE_ALLOWLIST.contains s)) ∧
    effectiveAllowlist.all (fun s => lowerString s == s) = true := by
  constructor
  · intro s
    simp [effectiveAllowlist, List.contains]
  · rfl

/-- C4: every commit message matching an ignore predicate (the merge-marker
substring or the version-bump pattern) evaluates to a report with zero rule
results and an overall pass, whatever the message's other properties. -/
theorem claim_C4_ignored_commits_pass (msg : String) (h : ignoresMatch msg = true) :
    (evaluate msg).results = [] ∧ (evaluate msg).overallPassed = true := by
  simp [evaluate, h]

/-- Witness for C4 at the bump commit `"bump foo-pkg to v1.2.3"`. -/
theorem claim_C4_witness :
    ignoresMatch ("bump foo-pkg to v1.2.3") = true ∧
    (evaluate ("bump foo-pkg to v1.2.3")).results = [] ∧
    (evaluate ("bump foo-pkg to v1.2.3")).overallPassed = true :=
  ⟨by rfl, claim_C4_ignored_commits_pass ("bump foo-pkg to v1.2.3") (by rfl)⟩

/-- C7: the custom case rule depends only on the parsed description — two
parses with equal descriptions but different components and different raw
headers always produce the same rule result. -/
theorem claim_C7_case_rule_depends_only_on_description
    (p q : Parsed) (w : When) (value : List CaseStyle)
    (hdesc : p.description = q.description)
    (hcomp : p.component ≠ q.component) (hraw : p.header ≠ q.header) :
    customSubjectCaseRule p w value = customSubjectCaseRule q w value := by
  unfold customSubjectCaseRule
  rw [hdesc]

/-- C2 (counterexample): the token `a!` contains no whitespace and the rest
`b` is non-empty, yet parsing `a!: b` does not yield component `a!` — the
character `!` is outside the `[\w._-]` token class, so the lax alternative
matches instead and both captures stay unset. -/
theorem claim_C2_counterexample :
    ("a!").data.all (fun c => !jsWhitespace c) = true ∧
    ("b" : String) ≠ "" ∧
    ("a!") ++ (": ") ++ ("b") = ("a!: b") ∧
    (parseHeader ("a!: b")).component = none ∧
    (parseHeader ("a!: b")).description = none :=
  ⟨by decide, by decide, by rfl, by rfl, by rfl⟩

/-- C2 (amended): for headers `<token>: <rest>` whose token is a non-empty run
of word characters, dots, underscores or hyphens and whose rest is a non-empty
run of line characters, parsing yields exactly that component and description. -/
theorem claim_C2_parse_colon_form (tok rest : String)
    (h₁ : tok ≠ "") (h₂ : tok.data.all componentChar = true)
    (h₃ : rest ≠ "") (h₄ : rest.data.all dotChar = true) :
    (parseHeader (tok ++ (": ") ++ rest)).component = some tok ∧
    (parseHeader (tok ++ (": ") ++ rest)).description = some rest := by
  have hdata : (tok ++ (": ") ++ rest).data = tok.data ++ ':' :: ' ' :: rest.data := by
    simp [String.data_append]
  have hm : matchColonForm (tok ++ (": ") ++ rest).data = some (tok.data, rest.data) := by
    rw [hdata]
    exact matchColonForm_build tok.data rest.data ' '
      (data_ne_nil_of_ne_empty h₁) h₂ (data_ne_nil_of_ne_empty h₃) h₄ (by decide)
  unfold parseHeader
  rw [hm]
  exact ⟨rfl, rfl⟩

/-- Witness for C2 at the header `dog: refill water bowl`. -/
theorem claim_C2_witness :
    ("dog" : String) ≠ "" ∧ ("dog").data.all componentChar = true ∧
    ("refill water bowl" : String) ≠ "" ∧
    ("refill water bowl").data.all dotChar = true ∧
    (parseHeader (("dog") ++ (": ") ++ ("refill water bowl"))).component = some ("dog") ∧
    (parseHeader (("dog") ++ (": ") ++ ("refill water bowl"))).description =
      some ("refill water bowl") := by
  refine ⟨by decide, by decide, by decide, by decide, ?_⟩
  exact claim_C2_parse_colon_form ("dog") ("refill water bowl")
    (by decide) (by decide) (by decide) (by decide)

/-- C3 (counterexample): the colon-free header `migrate shoes` parses with an
unset description (coerced to the empty string by the rules), not with the
description equal to the whole header; the whole header lands in `subject`. -/
theorem claim_C3_counterexample :
    ("migrate shoes").data.all (fun c => c != ':') = true ∧
    (parseHeader ("migrate shoes")).description = none ∧
    (parseHeader ("migrate shoes")).description.getD ("") ≠ ("migrate shoes") :=
  ⟨by decide, by rfl, by decide⟩

/-- C3 (amended): parsing a non-empty colon-free single-line header never
fails: the whole header is captured as `subject`, while `component` and
`description` are unset (each coerced to the empty string by the rules that
read them). -/
theorem claim_C3_no_colon_parse (h : String) (h₁ : h ≠ "")
    (h₂ : h.data.all dotChar = true) (h₃ : h.data.all (fun c => c != ':') = true) :
    parseHeader h =
      { header := h, subject := some h, component := none, description := none } := by
  have hm : matchColonForm h.data = none := by
    cases hmc : matchColonForm h.data with
    | none => rfl
    | some pr =>
        obtain ⟨tok, ds⟩ := pr
        obtain ⟨_, _, _, _, w, _, hcs⟩ := matchColonForm_some h.data tok ds hmc
        have hcolon : (':' : Char) ∈ h.data := by
          rw [hcs]
          exact List.mem_append_right _ (by simp)
        have := List.all_eq_true.mp h₃ ':' hcolon
        simp at this
  unfold parseHeader
  rw [hm]
  simp [data_ne_nil_of_ne_empty h₁, h₂]

/-- Witness for C3 at the colon-free header `migrate shoes to new shoe module`. -/
theorem claim_C3_witness :
    ("migrate shoes to new shoe module" : String) ≠ "" ∧
    ("migrate shoes to new shoe module").data.all dotChar = true ∧
    ("migrate shoes to new shoe module").data.all (fun c => c != ':') = true ∧
    parseHeader ("migrate shoes to new shoe module") =
      { header := ("migrate shoes to new shoe module"),
        subject := some ("migrate shoes to new shoe module"),
        component := none, description := none } := by
  refine ⟨by decide, by decide, by decide, ?_⟩
  exact claim_C3_no_colon_parse ("migrate shoes to new shoe module")
    (by decide) (by decide) (by decide)

/-- C5 (counterexample): the header `foo: ` starts with the component token
`foo` and has no description, but the component-empty rule does not pass —
the strict alternative fails (no remainder after the space), so both captures
are unset and both rules fail together. -/
theorem claim_C5_counterexample :
    ("foo").data.all componentChar = true ∧
    ("foo") ++ (": ") = ("foo: ") ∧
    (parseHeader ("foo: ")).description.getD ("") = "" ∧
    (componentEmpty (parseHeader ("foo: ")) When.never).passed = false ∧
    (descriptionEmpty (parseHeader ("foo: ")) When.never).passed = false :=
  ⟨by decide, by rfl, by rfl, by rfl, by rfl⟩

/-- C5 (amended): each rule reads only its own field — component-empty passes
exactly when a component was captured and description-empty exactly when a
description was captured — but under the configured pattern the two captures
are always both present or both absent, so a header lacking either part fails
both rules, each with its own diagnostic entry. -/
theorem claim_C5_rules_follow_fields (h : String) :
    (componentEmpty (parseHeader h) When.never).passed =
      (parseHeader h).component.isSome ∧
    (descriptionEmpty (parseHeader h) When.never).passed =
      (parseHeader h).description.isSome ∧
    (parseHeader h).component.isSome = (parseHeader h).description.isSome := by
  cases hmc : matchColonForm h.data with
  | some pr =>
      obtain ⟨tok, ds⟩ := pr
      obtain ⟨htok, _, hds, _, _⟩ := matchColonForm_some h.data tok ds hmc
      unfold parseHeader
      rw [hmc]
      refine ⟨?_, ?_, rfl⟩
      · simp [componentEmpty, When.negated, notEmptyStr, String.length,
              List.length_pos, htok]
      · simp [descriptionEmpty, When.negated, notEmptyStr, String.length,
              List.length_pos, hds]
  | none =>
      unfold parseHeader
      rw [hmc]
      simp only []
      split
      · exact ⟨by simp [componentEmpty, When.negated, notEmptyStr],
          by simp [descriptionEmpty, When.negated, notEmptyStr], rfl⟩
      · exact ⟨by simp [componentEmpty, When.negated, notEmptyStr],
          by simp [descriptionEmpty, When.negated, notEmptyStr], rfl⟩

/-- C6 (counterexample): the header `a:<TAB>b` parses with component `a` and
description `b` (the pattern's `\s` accepts any whitespace character), but
component + `": "` + description rebuilds `a: b`, not the raw header. -/
theorem claim_C6_counterexample :
    (parseHeader ("a:\tb")).component = some ("a") ∧
    (parseHeader ("a:\tb")).description = some ("b") ∧
    ("a") ++ (": ") ++ ("b") ≠ ("a:\tb") :=
  ⟨by rfl, by rfl, by decide⟩

/-- C6 (amended): whenever both captures are present, the raw header is
component, colon, the single whitespace character accepted by the pattern,
then description; when that whitespace character is a space — the conventional
form — component + `": "` + description equals the raw header exactly. -/
theorem claim_C6_reconstruction (h c d : String)
    (hc : (parseHeader h).component = some c)
    (hd : (parseHeader h).description = some d) :
    ∃ w, jsWhitespace w = true ∧ h = c ++ String.mk [':', w] ++ d ∧
      (w = ' ' → h = c ++ (": ") ++ d) := by
  cases hmc : matchColonForm h.data with
  | none =>
      unfold parseHeader at hc
      rw [hmc] at hc
      simp only [] at hc
      split at hc <;> simp at hc
  | some pr =>
      obtain ⟨tok, ds⟩ := pr
      obtain ⟨_, _, _, _, w, hw, hcs⟩ := matchColonForm_some h.data tok ds hmc
      unfold parseHeader at hc hd
      rw [hmc] at hc hd
      simp only [Option.some.injEq] at hc hd
      refine ⟨w, hw, ?_, ?_⟩
      · apply string_ext
        rw [← hc, ← hd]
        simp [String.data_append, hcs]
      · intro hsp
        subst hsp
        apply string_ext
        rw [← hc, ← hd]
        simp [String.data_append, hcs]

/-- Witness for C6 at the header `a: b`. -/
theorem claim_C6_witness :
    (parseHeader ("a: b")).component = some ("a") ∧
    (parseHeader ("a: b")).description = some ("b") ∧
    (∃ w, jsWhitespace w = true ∧ ("a: b" : String) = ("a") ++ String.mk [':', w] ++ ("b") ∧
      (w = ' ' → ("a: b" : String) = ("a") ++ (": ") ++ ("b"))) :=
  ⟨by rfl, by rfl, claim_C6_reconstruction ("a: b") ("a") ("b") (by rfl) (by rfl)⟩

/-- Witness for C7 at two headers sharing a description but differing in
component and raw header. -/
theorem claim_C7_witness :
    (parseHeader ("dog: refill water bowl")).description =
      (parseHeader ("cat: refill water bowl")).description ∧
    (parseHeader ("dog: refill water bowl")).component ≠
      (parseHeader ("cat: refill water bowl")).component ∧
    (parseHeader ("dog: refill water bowl")).header ≠
      (parseHeader ("cat: refill water bowl")).header ∧
    customSubjectCaseRule (parseHeader ("dog: refill water bowl")) When.never
        [CaseStyle.sentenceCase, CaseStyle.startCase, CaseStyle.pascalCase, CaseStyle.upperCase] =
      customSubjectCaseRule (parseHeader ("cat: refill water bowl")) When.never
        [CaseStyle.sentenceCase, CaseStyle.startCase, CaseStyle.pascalCase, CaseStyle.upperCase] :=
  ⟨by rfl, by decide, by decide,
    claim_C7_case_rule_depends_only_on_description _ _ _ _ (by rfl) (by decide) (by decide)⟩

theorem takeWhile_weaken {α} (p q : α → Bool) (hpq : ∀ a, p a = true → q a = true) :
    ∀ l : List α, ∃ suf, l.takeWhile q = l.takeWhile p ++ suf ∧
      (suf = [] ∨ ∃ c t, suf = c :: t ∧ p c = false) := by
  intro l
  induction l with
  | nil => exact ⟨[], by simp, Or.inl rfl⟩
  | cons a as ih =>
      cases hpa : p a with
      | true =>
          rcases ih with ⟨suf, hsuf, hor⟩
          exact ⟨suf, by simp [List.takeWhile_cons, hpa, hpq a hpa, hsuf], hor⟩
      | false =>
          cases hqa : q a with
          | false => exact ⟨[], by simp [List.takeWhile_cons, hpa, hqa], Or.inl rfl⟩
          | true =>
              exact ⟨a :: as.takeWhile q,
                by simp [List.takeWhile_cons, hpa, hqa],
                Or.inr ⟨a, as.takeWhile q, rfl, hpa⟩⟩

set_option maxRecDepth 40000 in
theorem allowlist_whitespace_free :
    effectiveAllowlist.all (fun s => s.data.all (fun c => !jsWhitespace c)) = true := rfl

/-- C1 (counterexample): for the header `a: fix<TAB>bug` the description is
`fix<TAB>bug`, whose first whitespace-delimited token lower-cased is `fix`, a
member of the allowlist — yet the tense rule fails, because the code splits on
the literal space character only and looks up `fix<TAB>bug` as a whole. -/
theorem claim_C1_counterexample :
    (parseHeader ("a: fix\tbug")).description = some ("fix\tbug") ∧
    lowerString (firstWhitespaceWord ("fix\tbug")) = ("fix") ∧
    effectiveAllowlist.contains ("fix") = true ∧
    specTensePassAsStated ("fix\tbug") = true ∧
    (descriptionPresentImperativeTense (parseHeader ("a: fix\tbug")) When.always).passed =
      false :=
  ⟨by rfl, by rfl, by rfl, by rfl, by rfl⟩

/-- C1 (amended): the tense rule passes if and only if the trimmed, lower-cased
description is empty (so empty and all-whitespace descriptions trivially pass)
or its first space-delimited token is a member of the allowlist; nothing after
that token affects the result. -/
theorem claim_C1_tense_rule_contract (p : Parsed) :
    (descriptionPresentImperativeTense p When.always).passed =
      specTensePassAmended (p.description.getD ("")) := by
  unfold descriptionPresentImperativeTense specTensePassAmended
  simp only [When.negated]
  cases hdd : (jsTrimStr (lowerString (p.description.getD ("")))).data with
  | nil =>
      have hdeq : jsTrimStr (lowerString (p.description.getD (""))) = "" :=
        string_ext (by simpa using hdd)
      rw [hdeq]
      simp [firstSpaceToken]
  | cons c t =>
      have hcw : jsWhitespace c = false :=
        jsTrimList_head_not_ws (lowerString (p.description.getD (""))).data c t hdd
      have hcne : c ≠ ' ' := by
        intro he
        rw [he] at hcw
        exact absurd hcw (by decide)
      have hfwne : firstSpaceToken (jsTrimStr (lowerString (p.description.getD ("")))) ≠ "" := by
        unfold firstSpaceToken
        rw [hdd]
        intro he
        have := congrArg String.data he
        simp [List.takeWhile_cons, hcne] at this
      have hdne : jsTrimStr (lowerString (p.description.getD (""))) ≠ "" :=
        string_ne_empty_of_data hdd
      rw [if_neg hfwne]
      simp [beq_iff_eq, hdne]

/-- C8: for every parsed description whose first whitespace-delimited token
(of its trimmed, lower-cased form) is absent from the allowlist, the tense rule
fails and its failure message contains that exact token. -/
theorem claim_C8_tense_failure_names_word (p : Parsed) (desc : String)
    (hdesc : p.description = some desc)
    (hne : firstWhitespaceWord (jsTrimStr (lowerString desc)) ≠ "")
    (hnotin : effectiveAllowlist.contains
        (firstWhitespaceWord (jsTrimStr (lowerString desc))) = false) :
    (descriptionPresentImperativeTense p When.always).passed = false ∧
    ∃ pre suf, (descriptionPresentImperativeTense p When.always).msg =
      some (pre ++ firstWhitespaceWord (jsTrimStr (lowerString desc)) ++ suf) := by
  have himp : ∀ a : Char, (!jsWhitespace a) = true → decide (a ≠ ' ') = true := by
    intro a ha
    have ha' : jsWhitespace a = false := by simpa using ha
    simp only [decide_eq_true_eq]
    intro he
    rw [he] at ha'
    exact absurd ha' (by decide)
  obtain ⟨suf, hsuf, hor⟩ :=
    takeWhile_weaken (fun c => !jsWhitespace c) (fun c => decide (c ≠ ' ')) himp
      (jsTrimStr (lowerString desc)).data
  have hfweq : firstSpaceToken (jsTrimStr (lowerString desc)) =
      firstWhitespaceWord (jsTrimStr (lowerString desc)) ++ String.mk suf := by
    unfold firstSpaceToken firstWhitespaceWord
    exact congrArg String.mk hsuf
  have hfwdata : (firstSpaceToken (jsTrimStr (lowerString desc))).data =
      (firstWhitespaceWord (jsTrimStr (lowerString desc))).data ++ suf := by
    rw [hfweq]
    rfl
  have hnotin2 : effectiveAllowlist.contains
      (firstSpaceToken (jsTrimStr (lowerString desc))) = false := by
    rcases hor with hnil | ⟨c, t, hst, hcws⟩
    · have : firstSpaceToken (jsTrimStr (lowerString desc)) =
          firstWhitespaceWord (jsTrimStr (lowerString desc)) := by
        apply string_ext
        rw [hfwdata, hnil, List.append_nil]
      rw [this]
      exact hnotin
    · cases hmem : effectiveAllowlist.contains
          (firstSpaceToken (jsTrimStr (lowerString desc))) with
      | false => rfl
      | true =>
          exfalso
          have hmem' : firstSpaceToken (jsTrimStr (lowerString desc)) ∈
              effectiveAllowlist := by
            simpa [List.contains] using hmem
          have hwsfree := List.all_eq_true.mp allowlist_whitespace_free _ hmem'
          have hall : ∀ x ∈ (firstSpaceToken (jsTrimStr (lowerString desc))).data,
              (!jsWhitespace x) = true := List.all_eq_true.mp (by simpa using hwsfree)
          have hcin : c ∈ (firstSpaceToken (jsTrimStr (lowerString desc))).data := by
            rw [hfwdata, hst]
            exact List.mem_append_right _ (by simp)
          have := hall c hcin
          rw [hcws] at this
          exact absurd this (by decide)
  have hfwne : firstSpaceToken (jsTrimStr (lowerString desc)) ≠ "" := by
    intro he
    have hd : (firstSpaceToken (jsTrimStr (lowerString desc))).data = [] := by
      rw [he]
    rw [hfwdata] at hd
    have := List.append_eq_nil.mp hd
    exact hne (string_ext (by simp [this.1]))
  unfold descriptionPresentImperativeTense
  rw [hdesc]
  simp only [Option.getD_some, When.negated]
  rw [if_neg hfwne]
  refine ⟨by simpa using hnotin2, ?_⟩
  refine ⟨("subject") ++ (" ") ++ ("must") ++ (" ") ++
    ("use present imperative tense. disallowed word: ") ++ (" "), String.mk suf, ?_⟩
  simp only [mkMessage, Option.some.injEq]
  rw [hfweq]
  simp [String.append_assoc]
  rw [← String.append_assoc, ← String.append_assoc]
  congr 1

/-- Witness for C8 at the header `a: zzzap everything` (first word `zzzap`,
not in the allowlist). -/
theorem claim_C8_witness :
    (parseHeader ("a: zzzap everything")).description = some ("zzzap everything") ∧
    firstWhitespaceWord (jsTrimStr (lowerString ("zzzap everything"))) = ("zzzap") ∧
    ("zzzap" : String) ≠ "" ∧
    effectiveAllowlist.contains ("zzzap") = false ∧
    ((descriptionPresentImperativeTense (parseHeader ("a: zzzap everything"))
        When.always).passed = false ∧
      ∃ pre suf, (descriptionPresentImperativeTense (parseHeader ("a: zzzap everything"))
          When.always).msg =
        some (pre ++ firstWhitespaceWord (jsTrimStr (lowerString ("zzzap everything"))) ++ suf)) := by
  refine ⟨by rfl, by rfl, by decide, by rfl, ?_⟩
  exact claim_C8_tense_failure_names_word (parseHeader ("a: zzzap everything"))
    ("zzzap everything") (by rfl) (by decide) (by rfl)

/-- C10: the version-bump ignore predicate matches only when the entire
trimmed commit message is a single bump line: on a match, the trimmed message
decomposes exactly as `bump <pkg> to <version>` with both runs non-empty and
drawn from `[\w.-]`, and in particular contains no newline — so any message
with a body or trailing text after the bump line is fully validated. -/
theorem claim_C10_bump_ignore_anchored (msg : String) (h : bumpIgnore msg = true) :
    (∃ A B : List Char,
        jsTrimList msg.data = ("bump ").data ++ A ++ (" to ").data ++ B ∧
        A ≠ [] ∧ A.all bumpChar = true ∧ B ≠ [] ∧ B.all bumpChar = true) ∧
    (jsTrimList msg.data).all (fun c => c != '\n') = true := by
  have hbn : ∀ l : List Char, l.all bumpChar = true → l.all (fun c => c != '\n') = true := by
    intro l hl
    rw [List.all_eq_true] at hl ⊢
    intro x hx
    have hb := hl x hx
    simp only [bne_iff_ne, ne_eq]
    intro he
    rw [he] at hb
    exact absurd hb (by decide)
  unfold bumpIgnore at h
  split at h
  next => exact absurd h (by simp)
  next r heq =>
    have h1 : jsTrimList msg.data = ("bump ").data ++ r :=
      dropLit_eq_some _ _ _ heq
    simp only [] at h
    rw [Bool.and_eq_true] at h
    obtain ⟨hrun, hrest⟩ := h
    split at hrest
    next => exact absurd hrest (by simp)
    next b heq2 =>
      have h2 : r.dropWhile bumpChar = (" to ").data ++ b :=
        dropLit_eq_some _ _ _ heq2
      rw [Bool.and_eq_true] at hrest
      obtain ⟨hbne, hball⟩ := hrest
      have hr : r = r.takeWhile bumpChar ++ ((" to ").data ++ b) := by
        rw [← h2]
        exact (List.takeWhile_append_dropWhile ..).symm
      constructor
      · refine ⟨r.takeWhile bumpChar, b, ?_, ?_, List.all_takeWhile .., ?_, by simpa using hball⟩
        · rw [h1]
          conv_lhs => rw [hr]
          simp [List.append_assoc]
        · intro hnil
          rw [hnil] at hrun
          simp at hrun
        · intro hnil
          rw [hnil] at hbne
          simp at hbne
      · rw [h1]
        conv_lhs => rw [hr]
        simp only [List.all_append, Bool.and_eq_true]
        refine ⟨by decide, hbn _ (List.all_takeWhile ..), by decide, hbn _ (by simpa using hball)⟩

/-- Witness for C10 at the single-line bump message `bump foo-pkg to v1.2.3`. -/
theorem claim_C10_witness :
    bumpIgnore ("bump foo-pkg to v1.2.3") = true ∧
    ((∃ A B : List Char,
        jsTrimList ("bump foo-pkg to v1.2.3").data =
          ("bump ").data ++ A ++ (" to ").data ++ B ∧
        A ≠ [] ∧ A.all bumpChar = true ∧ B ≠ [] ∧ B.all bumpChar = true) ∧
      (jsTrimList ("bump foo-pkg to v1.2.3").data).all (fun c => c != '\n') = true) :=
  ⟨by rfl, claim_C10_bump_ignore_anchored ("bump foo-pkg to v1.2.3") (by rfl)⟩

end Commitlint
